import Mathlib

/-!
Verification development for the deduplication and aggregation engine of the
marketing-attribution reporting pipeline (dedupe.py, spend.py, performance.py,
normalization.py).

The Python code is shallowly embedded: pandas DataFrames become lists of
structures, row order (the `__order` column) is the list index attached by
`List.enum`, `NaN`/`NaT` become `Option`/`WithBot`/`WithTop` sentinels, and the
pandas sort-then-take-first idiom becomes `pickMin` over a lexicographic key
(legitimate because each sort key ends with the unique original row index).
`pandas.groupby(sort=False)` iterates distinct keys in first-appearance order,
dropping rows whose key is missing; this is `firstKeys` over `filterMap`-ed
keys.  Where the code relies on pandas parsing behaviour (`pd.to_datetime`,
`pd.to_numeric`), that behaviour is modelled on an explicit cell datatype.
-/

namespace DB

/-! ### Generic list helpers -/

/-- Distinct elements of `l` not in `seen`, in order of first appearance. -/
def firstKeysAux [DecidableEq κ] (seen : List κ) : List κ → List κ
  | [] => []
  | k :: l => if k ∈ seen then firstKeysAux seen l else k :: firstKeysAux (k :: seen) l

/-- Distinct elements of `l` in order of first appearance: the iteration order
of `pandas.groupby(..., sort=False)`. -/
def firstKeys [DecidableEq κ] (l : List κ) : List κ := firstKeysAux [] l

/-- First element of `l` with minimal `key`: the result of a pandas
`sort_values(...).iloc[0]` when the sort key is `key`. -/
def pickMin [LinearOrder κ] (key : α → κ) : List α → Option α
  | [] => none
  | a :: l => some (l.foldl (fun b c => if key c < key b then c else b) a)

theorem mem_firstKeysAux [DecidableEq κ] {a : κ} (seen : List κ) (l : List κ) :
    a ∈ firstKeysAux seen l ↔ a ∈ l ∧ a ∉ seen := by
  induction l generalizing seen with
  | nil => simp [firstKeysAux]
  | cons k l ih =>
    rw [firstKeysAux]
    by_cases hk : k ∈ seen
    · rw [if_pos hk, ih, List.mem_cons]
      constructor
      · rintro ⟨h1, h2⟩; exact ⟨Or.inr h1, h2⟩
      · rintro ⟨rfl | h1, h2⟩
        · exact absurd hk h2
        · exact ⟨h1, h2⟩
    · rw [if_neg hk, List.mem_cons, List.mem_cons, ih]
      constructor
      · rintro (rfl | ⟨h1, h2⟩)
        · exact ⟨Or.inl rfl, hk⟩
        · exact ⟨Or.inr h1, fun hs => h2 (List.mem_cons_of_mem _ hs)⟩
      · rintro ⟨rfl | h1, h2⟩
        · exact Or.inl rfl
        · by_cases hak : a = k
          · exact Or.inl hak
          · exact Or.inr ⟨h1, fun hs => (List.mem_cons.mp hs).elim hak h2⟩

theorem nodup_firstKeysAux [DecidableEq κ] (seen : List κ) (l : List κ) :
    (firstKeysAux seen l).Nodup := by
  induction l generalizing seen with
  | nil => simp [firstKeysAux]
  | cons k l ih =>
    by_cases hk : k ∈ seen
    · simpa [firstKeysAux, if_pos hk] using ih seen
    · simp only [firstKeysAux, if_neg hk, List.nodup_cons]
      refine ⟨fun hmem => ?_, ih (k :: seen)⟩
      exact ((mem_firstKeysAux (k :: seen) l).mp hmem).2 (List.mem_cons_self k seen)

theorem mem_firstKeys [DecidableEq κ] {a : κ} (l : List κ) :
    a ∈ firstKeys l ↔ a ∈ l := by
  simp [firstKeys, mem_firstKeysAux]

theorem nodup_firstKeys [DecidableEq κ] (l : List κ) : (firstKeys l).Nodup :=
  nodup_firstKeysAux [] l

/-- The list `firstKeys l` enumerates exactly as many keys as there are distinct elements. -/
theorem length_firstKeys [DecidableEq κ] (l : List κ) :
    (firstKeys l).length = l.dedup.length := by
  refine List.Perm.length_eq ?_
  refine (List.perm_ext_iff_of_nodup (nodup_firstKeys l) (List.nodup_dedup l)).mpr ?_
  intro a
  rw [mem_firstKeys, List.mem_dedup]

theorem foldlMin_mem [LinearOrder κ] (key : α → κ) (a : α) (l : List α) :
    (l.foldl (fun b c => if key c < key b then c else b) a) ∈ a :: l := by
  induction l generalizing a with
  | nil => simp
  | cons c l ih =>
    simp only [List.foldl_cons]
    by_cases hc : key c < key a
    · rw [if_pos hc]
      rcases List.mem_cons.mp (ih c) with h | h
      · rw [h]; exact List.mem_cons_of_mem _ (List.mem_cons_self _ _)
      · exact List.mem_cons_of_mem _ (List.mem_cons_of_mem _ h)
    · rw [if_neg hc]
      rcases List.mem_cons.mp (ih a) with h | h
      · rw [h]; exact List.mem_cons_self _ _
      · exact List.mem_cons_of_mem _ (List.mem_cons_of_mem _ h)

theorem foldlMin_le [LinearOrder κ] (key : α → κ) (a : α) (l : List α) :
    key (l.foldl (fun b c => if key c < key b then c else b) a) ≤ key a ∧
      ∀ y ∈ l, key (l.foldl (fun b c => if key c < key b then c else b) a) ≤ key y := by
  induction l generalizing a with
  | nil => simp
  | cons c l ih =>
    simp only [List.foldl_cons]
    by_cases hc : key c < key a
    · rw [if_pos hc]
      obtain ⟨h1, h2⟩ := ih c
      exact ⟨le_trans h1 (le_of_lt hc), fun y hy => by
        rcases List.mem_cons.mp hy with rfl | hy
        · exact h1
        · exact h2 y hy⟩
    · rw [if_neg hc]
      obtain ⟨h1, h2⟩ := ih a
      exact ⟨h1, fun y hy => by
        rcases List.mem_cons.mp hy with rfl | hy
        · exact le_trans h1 (le_of_not_lt hc)
        · exact h2 y hy⟩

theorem pickMin_isSome [LinearOrder κ] (key : α → κ) {l : List α} (h : l ≠ []) :
    (pickMin key l).isSome := by
  cases l with
  | nil => exact absurd rfl h
  | cons a l => simp [pickMin]

theorem pickMin_mem [LinearOrder κ] (key : α → κ) {l : List α} {x : α}
    (h : pickMin key l = some x) : x ∈ l := by
  cases l with
  | nil => simp [pickMin] at h
  | cons a l =>
    simp only [pickMin, Option.some.injEq] at h
    exact h ▸ foldlMin_mem key a l

theorem pickMin_le [LinearOrder κ] (key : α → κ) {l : List α} {x : α}
    (h : pickMin key l = some x) : ∀ y ∈ l, key x ≤ key y := by
  cases l with
  | nil => simp [pickMin] at h
  | cons a l =>
    simp only [pickMin, Option.some.injEq] at h
    intro y hy
    obtain ⟨h1, h2⟩ := foldlMin_le key a l
    rcases List.mem_cons.mp hy with rfl | hy
    · exact h ▸ h1
    · exact h ▸ h2 y hy

/-! ### Normalization (normalization.py) -/

/-- ASCII whitespace, for the model of `pandas.Series.str.strip`. -/
def isSpaceChar (c : Char) : Bool := c = ' ' || c = '\t' || c = '\n' || c = '\r'

/-- Model of `str.strip()`, at the character-list level (ASCII whitespace). -/
def strTrim (s : String) : String :=
  String.mk (((s.data.dropWhile isSpaceChar).reverse.dropWhile isSpaceChar).reverse)

/-- Model of `str.upper()`, at the character-list level (ASCII letters). -/
def strUpper (s : String) : String := String.mk (s.data.map Char.toUpper)

/-- Literal forms that `norm_station_series` maps to missing (after strip +
uppercase). -/
def nullForms : List String := ["", "NONE", "N/A", "NA", "<NA>", "NULL"]

/-- Model of `norm_station_series` on one cell: strip whitespace, uppercase, and turn
null-like literals into missing. -/
def normStation (s : String) : Option String :=
  let t := strUpper (strTrim s)
  if t ∈ nullForms then none else some t

/-- Station normalization followed by `.fillna("UNKNOWN")`, as applied to the
event tables in `dedupe_actions` and to spend tables. -/
def fillStation (st : Option String) : String :=
  match st with
  | none => "UNKNOWN"
  | some s => (normStation s).getD "UNKNOWN"

/-! ### Deduplication (dedupe.py) -/

/-- Dedupe mode (`with_action` groups by SessionID+Action, `session_only` by
SessionID alone). -/
inductive DMode
  | withAction
  | sessionOnly
deriving DecidableEq, Repr

/-- A mapped action row after the coercions at the top of `dedupe_actions`:
`Timestamp` is parsed (NaT = `none`), `Probability` is parsed with
`.fillna(-np.inf)` (missing = `⊥`). -/
structure ARow where
  sessionId : Option String
  action : Option String
  station : Option String
  ts : Option Nat
  prob : WithBot ℚ
deriving DecidableEq, Repr

/-- A mapped response row. -/
structure RRow where
  sessionId : Option String
  ts : Option Nat
deriving DecidableEq, Repr

/-- Statistics dictionary returned by `dedupe_actions`. -/
structure AStats where
  mode : String
  groupKeys : String
  groups : ℕ
  keptByTop3 : ℕ
  keptByProb : ℕ
deriving DecidableEq, Repr

/-- Statistics dictionary returned by `dedupe_response`. -/
structure RStats where
  groups : ℕ
deriving DecidableEq, Repr

def modeStr : DMode → String
  | .withAction => "with_action"
  | .sessionOnly => "session_only"

def groupKeysStr : DMode → String
  | .withAction => "SessionID, Action"
  | .sessionOnly => "SessionID"

/-- The `rank_map` dict of `dedupe_actions`, looked up at a (filled) station
name; a later duplicate station in `top3` overwrites an earlier one, as in the
Python dict comprehension. -/
def rankMap (top3 : List (String × ℤ)) (st : String) : Option ℤ :=
  ((top3.filter (fun p => p.1 = st)).getLast?).map Prod.snd

/-- The grouping key of a row,`None` when any grouping column is missing (such
rows are dropped by `pandas.groupby`). -/
def akey (mode : DMode) (r : ARow) : Option (String × Option String) :=
  match mode with
  | .sessionOnly => r.sessionId.map (fun s => (s, none))
  | .withAction =>
    match r.sessionId, r.action with
    | some s, some a => some (s, some a)
    | _, _ => none

/-- An action row paired with its original position (`__order`). -/
abbrev IRow := ℕ × ARow

/-- Group keys of the actions table, in first-appearance order. -/
def akeys (mode : DMode) (df : List ARow) : List (String × Option String) :=
  firstKeys (df.filterMap (akey mode))

/-- The rows of one group, with original positions. -/
def agroup (mode : DMode) (df : List ARow) (k : String × Option String) : List IRow :=
  df.enum.filter (fun p => akey mode p.2 = some k)

/-- The `__rank` column: the row's (normalized, filled) station looked up in the top-3
rank map. -/
def irank (top3 : List (String × ℤ)) (p : IRow) : Option ℤ :=
  rankMap top3 (fillStation p.2.station)

/-- The `__ts_sort` key: timestamp with NaT filled by `pd.Timestamp.max`, i.e. missing
sorts after every valid timestamp. -/
def tsKey : Option Nat → WithTop ℕ
  | some v => (v : WithTop ℕ)
  | none => ⊤

/-- Sort key of the top-3 branch: (`__rank`, `__ts_sort`, `__order`),
ascending. -/
def rkey (top3 : List (String × ℤ)) (p : IRow) : Lex (ℤ × Lex (WithTop ℕ × ℕ)) :=
  toLex ((irank top3 p).getD 0, toLex (tsKey p.2.ts, p.1))

/-- Sort key of the probability branch: (`Probability` descending, `__ts_sort`,
`__order`); the order dual makes the highest probability minimal, and `⊥`
(missing, i.e. `-inf`) maximal. -/
def pkey (p : IRow) : Lex (OrderDual (WithBot ℚ) × Lex (WithTop ℕ × ℕ)) :=
  toLex (OrderDual.toDual p.2.prob, toLex (tsKey p.2.ts, p.1))

/-- The ranked rows of a group (`top3_g`). -/
def rankedRows (top3 : List (String × ℤ)) (g : List IRow) : List IRow :=
  g.filter (fun p => (irank top3 p).isSome)

/-- The surviving row of one group of `dedupe_actions`: if any row is on a
top-3 station, the best-ranked, earliest, first such row; otherwise the
highest-probability, earliest, first row. -/
def awinner (top3 : List (String × ℤ)) (g : List IRow) : Option IRow :=
  if (rankedRows top3 g).isEmpty then pickMin pkey g
  else pickMin (rkey top3) (rankedRows top3 g)

/-- Model of `dedupe_actions` (dedupe.py lines 40-100). -/
def dedupeActions (df : List ARow) (top3 : List (String × ℤ)) (mode : DMode) :
    List ARow × AStats :=
  let ks := akeys mode df
  let gs := ks.map (agroup mode df)
  let rows := (gs.filterMap (awinner top3)).map Prod.snd
  (rows,
    { mode := modeStr mode
      groupKeys := groupKeysStr mode
      groups := ks.length
      keptByTop3 := (gs.filter (fun g => ¬ (rankedRows top3 g).isEmpty)).length
      keptByProb := (gs.filter (fun g => (rankedRows top3 g).isEmpty)).length })

/-- A response row paired with its original position. -/
abbrev JRow := ℕ × RRow

/-- Sort key for responses: (`__ts_sort`, `__order`) ascending. -/
def jkey (p : JRow) : Lex (WithTop ℕ × ℕ) :=
  toLex (tsKey p.2.ts, p.1)

def rkeys (df : List RRow) : List String :=
  firstKeys (df.filterMap (·.sessionId))

def rgroup (df : List RRow) (s : String) : List JRow :=
  df.enum.filter (fun p => p.2.sessionId = some s)

/-- Model of `dedupe_response` (dedupe.py lines 103-120).  When no group exists the
Python code evaluates `kept[0]` on an empty list and raises `IndexError`;
that failure is modelled as `none`. -/
def dedupeResponse (df : List RRow) : Option (List RRow × RStats) :=
  let ks := rkeys df
  let kept := (ks.map (rgroup df)).filterMap (pickMin jkey)
  if kept.isEmpty then none
  else some (kept.map Prod.snd, ⟨ks.length⟩)

/-! ### Support lemmas about the dedupe model -/

theorem length_filterMap_of_isSome {f : α → Option β} :
    ∀ {l : List α}, (∀ x ∈ l, (f x).isSome) → (l.filterMap f).length = l.length
  | [], _ => rfl
  | a :: l, h => by
    obtain ⟨b, hb⟩ := Option.isSome_iff_exists.mp (h a (List.mem_cons_self a l))
    rw [List.filterMap_cons_some hb, List.length_cons, List.length_cons,
      length_filterMap_of_isSome (fun x hx => h x (List.mem_cons_of_mem a hx))]

theorem filterMap_akey_enum (mode : DMode) (df : List ARow) :
    df.enum.filterMap (fun p => akey mode p.2) = df.filterMap (akey mode) := by
  conv_rhs => rw [← List.enum_map_snd df]
  rw [List.filterMap_map]
  rfl

theorem exists_mem_agroup {mode : DMode} {df : List ARow} {k : String × Option String}
    (hk : k ∈ akeys mode df) : ∃ p, p ∈ agroup mode df k := by
  rw [akeys, mem_firstKeys, ← filterMap_akey_enum] at hk
  obtain ⟨p, hp, hpk⟩ := List.mem_filterMap.mp hk
  exact ⟨p, List.mem_filter.mpr ⟨hp, by simp [hpk]⟩⟩

theorem agroup_ne_nil {mode : DMode} {df : List ARow} {k : String × Option String}
    (hk : k ∈ akeys mode df) : agroup mode df k ≠ [] := by
  obtain ⟨p, hp⟩ := exists_mem_agroup hk
  exact List.ne_nil_of_mem hp

theorem awinner_isSome {top3 : List (String × ℤ)} {g : List IRow} (hg : g ≠ []) :
    (awinner top3 g).isSome := by
  rw [awinner]
  by_cases h : (rankedRows top3 g).isEmpty
  · rw [if_pos h]
    exact pickMin_isSome _ hg
  · rw [if_neg h]
    exact pickMin_isSome _ (by simpa [List.isEmpty_iff] using h)

theorem winner_mem_dedupeActions {df : List ARow} {top3 : List (String × ℤ)} {mode : DMode}
    {k : String × Option String} {w : IRow}
    (hk : k ∈ akeys mode df) (hw : awinner top3 (agroup mode df k) = some w) :
    w.2 ∈ (dedupeActions df top3 mode).1 := by
  have h1 : agroup mode df k ∈ (akeys mode df).map (agroup mode df) :=
    List.mem_map_of_mem _ hk
  have h2 : w ∈ ((akeys mode df).map (agroup mode df)).filterMap (awinner top3) :=
    List.mem_filterMap.mpr ⟨_, h1, hw⟩
  simpa [dedupeActions] using List.mem_map_of_mem Prod.snd h2

theorem rankMap_isSome_mem {top3 : List (String × ℤ)} {st : String}
    (h : (rankMap top3 st).isSome) : st ∈ top3.map Prod.fst := by
  rw [rankMap, Option.isSome_map'] at h
  have hne : top3.filter (fun p => p.1 = st) ≠ [] := by
    intro hnil
    rw [hnil] at h
    simp at h
  obtain ⟨p, hp⟩ := List.exists_mem_of_ne_nil _ hne
  obtain ⟨hmem, hst⟩ := List.mem_filter.mp hp
  exact List.mem_map.mpr ⟨p, hmem, by simpa using hst⟩

theorem filterMap_sid_enum (df : List RRow) :
    df.enum.filterMap (fun p => p.2.sessionId) = df.filterMap (·.sessionId) := by
  conv_rhs => rw [← List.enum_map_snd df]
  rw [List.filterMap_map]
  rfl

theorem exists_mem_rgroup {df : List RRow} {k : String}
    (hk : k ∈ rkeys df) : ∃ p, p ∈ rgroup df k := by
  rw [rkeys, mem_firstKeys, ← filterMap_sid_enum] at hk
  obtain ⟨p, hp, hpk⟩ := List.mem_filterMap.mp hk
  exact ⟨p, List.mem_filter.mpr ⟨hp, by simp [hpk]⟩⟩

theorem rgroup_ne_nil {df : List RRow} {k : String}
    (hk : k ∈ rkeys df) : rgroup df k ≠ [] := by
  obtain ⟨p, hp⟩ := exists_mem_rgroup hk
  exact List.ne_nil_of_mem hp

theorem rkept_length (df : List RRow) :
    (((rkeys df).map (rgroup df)).filterMap (pickMin jkey)).length = (rkeys df).length := by
  rw [length_filterMap_of_isSome, List.length_map]
  intro g hg
  obtain ⟨k, hk, rfl⟩ := List.mem_map.mp hg
  exact pickMin_isSome _ (rgroup_ne_nil hk)

theorem dedupeResponse_eq_some {df : List RRow} (h : rkeys df ≠ []) :
    dedupeResponse df =
      some ((((rkeys df).map (rgroup df)).filterMap (pickMin jkey)).map Prod.snd,
        ⟨(rkeys df).length⟩) := by
  rw [dedupeResponse]
  have hlen : (((rkeys df).map (rgroup df)).filterMap (pickMin jkey)).length =
      (rkeys df).length := rkept_length df
  have hne : ¬ (((rkeys df).map (rgroup df)).filterMap (pickMin jkey)).isEmpty := by
    rw [List.isEmpty_iff]
    intro hnil
    rw [hnil] at hlen
    exact h (List.length_eq_zero.mp hlen.symm)
  rw [if_neg hne]

/-! ### Claim theorems: deduplication -/

/-- C1 counterexample: the claim, as stated, asserts that for *every* input
table `dedupe_response` returns a deduplicated output (with one row per
distinct group key) together with statistics.  On a table whose single row has
a missing SessionID there are zero groups, `kept` stays empty, and the Python
code raises `IndexError` at `kept[0].index` instead of returning an empty
output — modelled by `dedupeResponse` returning `none`. -/
theorem dedupeResponse_no_output_on_keyless_input :
    ¬ ∃ out st, dedupeResponse [⟨none, some 5⟩] = some (out, st) := by
  rintro ⟨out, st, h⟩
  have h0 : dedupeResponse [⟨none, some 5⟩] = none := rfl
  rw [h0] at h
  exact Option.noConfusion h

/-- C1 (amended): dedup cardinality.  For every input, `dedupe_actions`
returns exactly one row per distinct group key present in the input (by
`{SessionID, Action}` in `with_action` mode, by `{SessionID}` in
`session_only` mode) and its statistics report that same group count; and
`dedupe_response` does the same whenever at least one row carries a
non-missing SessionID (with no such row it fails instead of returning an
empty table, see the counterexample). -/
theorem dedup_cardinality
    (df : List ARow) (top3 : List (String × ℤ)) (mode : DMode)
    (rdf : List RRow) (hr : ∃ r ∈ rdf, r.sessionId.isSome) :
    (dedupeActions df top3 mode).1.length = (df.filterMap (akey mode)).dedup.length ∧
    (dedupeActions df top3 mode).2.groups = (df.filterMap (akey mode)).dedup.length ∧
    ∃ out st, dedupeResponse rdf = some (out, st) ∧
      out.length = (rdf.filterMap (·.sessionId)).dedup.length ∧
      st.groups = (rdf.filterMap (·.sessionId)).dedup.length := by
  have hact : (((akeys mode df).map (agroup mode df)).filterMap (awinner top3)).length =
      (akeys mode df).length := by
    rw [length_filterMap_of_isSome, List.length_map]
    intro g hg
    obtain ⟨k, hk, rfl⟩ := List.mem_map.mp hg
    exact awinner_isSome (agroup_ne_nil hk)
  refine ⟨?_, ?_, ?_⟩
  · show ((((akeys mode df).map (agroup mode df)).filterMap (awinner top3)).map Prod.snd).length = _
    rw [List.length_map, hact, akeys, length_firstKeys]
  · show (akeys mode df).length = _
    rw [akeys, length_firstKeys]
  · have hkeys : rkeys rdf ≠ [] := by
      obtain ⟨r, hrmem, hrsid⟩ := hr
      obtain ⟨s, hs⟩ := Option.isSome_iff_exists.mp hrsid
      have : s ∈ rkeys rdf := by
        rw [rkeys, mem_firstKeys]
        exact List.mem_filterMap.mpr ⟨r, hrmem, hs⟩
      exact List.ne_nil_of_mem this
    refine ⟨_, _, dedupeResponse_eq_some hkeys, ?_, ?_⟩
    · rw [List.length_map, rkept_length, rkeys, length_firstKeys]
    · show (rkeys rdf).length = _
      rw [rkeys, length_firstKeys]

/-- Witness for C1 at a concrete input: two distinct `{SessionID, Action}`
keys among three action rows, and two distinct SessionIDs among three
response rows. -/
theorem dedup_cardinality_witness :
    (dedupeActions
        [⟨some "S1", some "Click", some "WABC", some 3, ((9:ℚ)/10 : ℚ)⟩,
         ⟨some "S1", some "Click", some "KAAA", some 1, ((1:ℚ)/10 : ℚ)⟩,
         ⟨some "S1", some "Buy", none, none, ⊥⟩]
        [("WABC", 1)] DMode.withAction).1.length =
      ([(("S1" : String), some ("Click" : String)), ("S1", some "Buy")] : List (String × Option String)).dedup.length ∧
    ∃ out st, dedupeResponse [⟨some "A", some 1⟩, ⟨some "A", some 2⟩, ⟨some "B", none⟩] =
        some (out, st) ∧ out.length = 2 ∧ st.groups = 2 := by
  obtain ⟨h1, _h2, out, st, h3, h4, h5⟩ :=
    dedup_cardinality
      [⟨some "S1", some "Click", some "WABC", some 3, ((9:ℚ)/10 : ℚ)⟩,
       ⟨some "S1", some "Click", some "KAAA", some 1, ((1:ℚ)/10 : ℚ)⟩,
       ⟨some "S1", some "Buy", none, none, ⊥⟩]
      [("WABC", 1)] DMode.withAction
      [⟨some "A", some 1⟩, ⟨some "A", some 2⟩, ⟨some "B", none⟩]
      ⟨⟨some "A", some 1⟩, by decide, by decide⟩
  refine ⟨by simpa using h1, out, st, h3, by simpa using h4, by simpa using h5⟩

/-- C2: priority precedence in `dedupe_actions`.  In any group containing at
least one row whose (normalized, filled) station is in the top-3 rank table,
the surviving row is itself ranked — its station appears in the top-3 table —
and it minimises the lexicographic key (Rank, timestamp-with-missing-last,
original order) among the ranked rows of the group, so the numerically lowest
rank wins, ties broken by earliest timestamp then original row order;
probability is never consulted (the winner is selected from the ranked rows
alone). -/
theorem priority_precedence
    (df : List ARow) (top3 : List (String × ℤ)) (mode : DMode)
    (k : String × Option String) (hk : k ∈ akeys mode df)
    (hr : ∃ p ∈ agroup mode df k, (irank top3 p).isSome) :
    ∃ w, awinner top3 (agroup mode df k) = some w ∧
      w ∈ agroup mode df k ∧
      (irank top3 w).isSome ∧
      fillStation w.2.station ∈ top3.map Prod.fst ∧
      w.2 ∈ (dedupeActions df top3 mode).1 ∧
      ∀ p ∈ agroup mode df k, (irank top3 p).isSome → rkey top3 w ≤ rkey top3 p := by
  obtain ⟨q, hq, hqr⟩ := hr
  have hqm : q ∈ rankedRows top3 (agroup mode df k) :=
    List.mem_filter.mpr ⟨hq, by simpa using hqr⟩
  have hne : rankedRows top3 (agroup mode df k) ≠ [] := List.ne_nil_of_mem hqm
  have hwin : awinner top3 (agroup mode df k) =
      pickMin (rkey top3) (rankedRows top3 (agroup mode df k)) := by
    rw [awinner, if_neg (by simpa [List.isEmpty_iff] using hne)]
  obtain ⟨w, hw⟩ := Option.isSome_iff_exists.mp
    (hwin ▸ awinner_isSome (agroup_ne_nil hk) :
      (pickMin (rkey top3) (rankedRows top3 (agroup mode df k))).isSome)
  have hwmem := pickMin_mem _ hw
  obtain ⟨hwg, hwr⟩ := List.mem_filter.mp hwmem
  have hwr' : (irank top3 w).isSome := by simpa using hwr
  refine ⟨w, hwin ▸ hw, hwg, hwr', rankMap_isSome_mem hwr', ?_, ?_⟩
  · exact winner_mem_dedupeActions hk (hwin ▸ hw)
  · intro p hp hpr
    exact pickMin_le _ hw p (List.mem_filter.mpr ⟨hp, by simpa using hpr⟩)

/-- Witness for C2: the scenario from the spec — `S1/Click` rows on `WABC`
(probability 0.9, ranked 1) and on `UNKNOWN` (probability 0.99, unranked);
the ranked `WABC` row survives despite the lower probability. -/
theorem priority_precedence_witness :
    ∃ w, awinner [(("WABC" : String), (1 : ℤ))]
        (agroup DMode.withAction
          [⟨some "S1", some "Click", some "WABC", none, ((9:ℚ)/10 : ℚ)⟩,
           ⟨some "S1", some "Click", some "UNKNOWN", none, ((99:ℚ)/100 : ℚ)⟩]
          ("S1", some "Click")) = some w ∧
      w ∈ agroup DMode.withAction
          [⟨some "S1", some "Click", some "WABC", none, ((9:ℚ)/10 : ℚ)⟩,
           ⟨some "S1", some "Click", some "UNKNOWN", none, ((99:ℚ)/100 : ℚ)⟩]
          ("S1", some "Click") ∧
      (irank [("WABC", 1)] w).isSome ∧
      fillStation w.2.station ∈ [("WABC", (1 : ℤ))].map Prod.fst ∧
      w.2 ∈ (dedupeActions
          [⟨some "S1", some "Click", some "WABC", none, ((9:ℚ)/10 : ℚ)⟩,
           ⟨some "S1", some "Click", some "UNKNOWN", none, ((99:ℚ)/100 : ℚ)⟩]
          [("WABC", 1)] DMode.withAction).1 ∧
      ∀ p ∈ agroup DMode.withAction
          [⟨some "S1", some "Click", some "WABC", none, ((9:ℚ)/10 : ℚ)⟩,
           ⟨some "S1", some "Click", some "UNKNOWN", none, ((99:ℚ)/100 : ℚ)⟩]
          ("S1", some "Click"), (irank [("WABC", 1)] p).isSome →
        rkey [("WABC", 1)] w ≤ rkey [("WABC", 1)] p :=
  priority_precedence
    [⟨some "S1", some "Click", some "WABC", none, ((9:ℚ)/10 : ℚ)⟩,
     ⟨some "S1", some "Click", some "UNKNOWN", none, ((99:ℚ)/100 : ℚ)⟩]
    [("WABC", 1)] DMode.withAction ("S1", some "Click")
    (by decide) (by decide)

/-- C3: probability fallback in `dedupe_actions`.  In any group with no row on
a top-3 station, the surviving row has probability greater than or equal to
every row of the group (missing probability is the bottom element `-inf`, so a
missing value never beats a finite one), and it minimises the key
(probability descending, timestamp-with-missing-last, original order), i.e.
exact probability ties are broken by earliest timestamp then original row
order. -/
theorem probability_fallback
    (df : List ARow) (top3 : List (String × ℤ)) (mode : DMode)
    (k : String × Option String) (hk : k ∈ akeys mode df)
    (hnr : ∀ p ∈ agroup mode df k, ¬ (irank top3 p).isSome) :
    ∃ w, awinner top3 (agroup mode df k) = some w ∧
      w ∈ agroup mode df k ∧
      w.2 ∈ (dedupeActions df top3 mode).1 ∧
      (∀ p ∈ agroup mode df k, p.2.prob ≤ w.2.prob) ∧
      ((∃ p ∈ agroup mode df k, p.2.prob ≠ ⊥) → w.2.prob ≠ ⊥) ∧
      ∀ p ∈ agroup mode df k, pkey w ≤ pkey p := by
  have hempty : rankedRows top3 (agroup mode df k) = [] := by
    rw [rankedRows, List.filter_eq_nil_iff]
    intro p hp
    simpa using hnr p hp
  have hwin : awinner top3 (agroup mode df k) = pickMin pkey (agroup mode df k) := by
    rw [awinner, if_pos (by simp [hempty])]
  obtain ⟨w, hw⟩ := Option.isSome_iff_exists.mp
    (pickMin_isSome pkey (agroup_ne_nil hk))
  have hwmem := pickMin_mem _ hw
  have hle : ∀ p ∈ agroup mode df k, pkey w ≤ pkey p := fun p hp => pickMin_le _ hw p hp
  have hprob : ∀ p ∈ agroup mode df k, p.2.prob ≤ w.2.prob := by
    intro p hp
    have h := hle p hp
    rw [pkey, pkey, Prod.Lex.le_iff] at h
    rcases h with h | ⟨h, _⟩
    · exact le_of_lt (by simpa using h)
    · have h2 : w.2.prob = p.2.prob := by simpa using congrArg OrderDual.ofDual h
      exact le_of_eq h2.symm
  refine ⟨w, hwin ▸ hw, hwmem, winner_mem_dedupeActions hk (hwin ▸ hw), hprob, ?_, hle⟩
  rintro ⟨p, hp, hpb⟩ hwb
  exact hpb (le_bot_iff.mp (hwb ▸ hprob p hp))

/-- Witness for C3: a group with no ranked station; the row with probability
1/2 beats the row with missing probability. -/
theorem probability_fallback_witness :
    ∃ w, awinner [(("WABC" : String), (1 : ℤ))]
        (agroup DMode.withAction
          [⟨some "S", some "Buy", some "KAAA", some 5, ((1:ℚ)/2 : ℚ)⟩,
           ⟨some "S", some "Buy", some "KBBB", none, ⊥⟩]
          ("S", some "Buy")) = some w ∧
      w ∈ agroup DMode.withAction
          [⟨some "S", some "Buy", some "KAAA", some 5, ((1:ℚ)/2 : ℚ)⟩,
           ⟨some "S", some "Buy", some "KBBB", none, ⊥⟩]
          ("S", some "Buy") ∧
      w.2 ∈ (dedupeActions
          [⟨some "S", some "Buy", some "KAAA", some 5, ((1:ℚ)/2 : ℚ)⟩,
           ⟨some "S", some "Buy", some "KBBB", none, ⊥⟩]
          [("WABC", 1)] DMode.withAction).1 ∧
      (∀ p ∈ agroup DMode.withAction
          [⟨some "S", some "Buy", some "KAAA", some 5, ((1:ℚ)/2 : ℚ)⟩,
           ⟨some "S", some "Buy", some "KBBB", none, ⊥⟩]
          ("S", some "Buy"), p.2.prob ≤ w.2.prob) ∧
      ((∃ p ∈ agroup DMode.withAction
          [⟨some "S", some "Buy", some "KAAA", some 5, ((1:ℚ)/2 : ℚ)⟩,
           ⟨some "S", some "Buy", some "KBBB", none, ⊥⟩]
          ("S", some "Buy"), p.2.prob ≠ ⊥) → w.2.prob ≠ ⊥) ∧
      ∀ p ∈ agroup DMode.withAction
          [⟨some "S", some "Buy", some "KAAA", some 5, ((1:ℚ)/2 : ℚ)⟩,
           ⟨some "S", some "Buy", some "KBBB", none, ⊥⟩]
          ("S", some "Buy"), pkey w ≤ pkey p :=
  probability_fallback
    [⟨some "S", some "Buy", some "KAAA", some 5, ((1:ℚ)/2 : ℚ)⟩,
     ⟨some "S", some "Buy", some "KBBB", none, ⊥⟩]
    [("WABC", 1)] DMode.withAction ("S", some "Buy")
    (by decide) (by decide)

/-- C5: on an empty input `dedupe_actions` returns an empty table with zeroed
statistics, as the claim states; but `dedupe_response` on an empty input has
no group, leaves `kept` empty, and the Python code raises `IndexError` at
`kept[0].index` (modelled by `none`) instead of returning an empty result, so
the claim's statement about `dedupe_response` contradicts the code.  Keeping
the claim (matching the spec's explicit EmptyGroupingInput semantics and the
guard `dedupe_actions` itself has), the missing empty-guard in
`dedupe_response` is a code bug. -/
theorem empty_input_behaviour (top3 : List (String × ℤ)) (mode : DMode) :
    dedupeActions [] top3 mode = ([], ⟨modeStr mode, groupKeysStr mode, 0, 0, 0⟩) ∧
    dedupeResponse ([] : List RRow) = none :=
  ⟨rfl, rfl⟩

/-- C6: response deduplication policy.  Within every group of response rows
sharing a SessionID, the surviving row minimises (timestamp-with-missing-last,
original order): it has the earliest timestamp, missing timestamps sort after
all valid ones, and ties are broken by original row order; the survivor
appears in the returned table. -/
theorem response_dedup_policy (df : List RRow) (k : String) (hk : k ∈ rkeys df) :
    ∃ w, pickMin jkey (rgroup df k) = some w ∧
      w ∈ rgroup df k ∧
      (∀ p ∈ rgroup df k, jkey w ≤ jkey p) ∧
      (∀ p ∈ rgroup df k, tsKey w.2.ts ≤ tsKey p.2.ts) ∧
      ∃ out st, dedupeResponse df = some (out, st) ∧ w.2 ∈ out := by
  obtain ⟨w, hw⟩ := Option.isSome_iff_exists.mp (pickMin_isSome jkey (rgroup_ne_nil hk))
  have hle : ∀ p ∈ rgroup df k, jkey w ≤ jkey p := fun p hp => pickMin_le _ hw p hp
  refine ⟨w, hw, pickMin_mem _ hw, hle, ?_, ?_⟩
  · intro p hp
    have h := hle p hp
    rw [jkey, jkey, Prod.Lex.le_iff] at h
    rcases h with h | ⟨h, _⟩
    · exact le_of_lt h
    · exact le_of_eq h
  · have hkeys : rkeys df ≠ [] := List.ne_nil_of_mem hk
    refine ⟨_, _, dedupeResponse_eq_some hkeys, ?_⟩
    have h1 : rgroup df k ∈ (rkeys df).map (rgroup df) := List.mem_map_of_mem _ hk
    have h2 : w ∈ ((rkeys df).map (rgroup df)).filterMap (pickMin jkey) :=
      List.mem_filterMap.mpr ⟨_, h1, hw⟩
    exact List.mem_map_of_mem Prod.snd h2

/-- Witness for C6: the spec scenario — two rows for SessionID "A" with
timestamps 2024-01-02T10:00 and 2024-01-01T09:00 (encoded order-preservingly
as 202401021000 and 202401010900); the run keeps exactly the earlier row. -/
theorem response_dedup_policy_witness :
    (∃ w, pickMin jkey (rgroup
          [⟨some "A", some 202401021000⟩, ⟨some "A", some 202401010900⟩] "A") = some w ∧
      w ∈ rgroup [⟨some "A", some 202401021000⟩, ⟨some "A", some 202401010900⟩] "A" ∧
      (∀ p ∈ rgroup [⟨some "A", some 202401021000⟩, ⟨some "A", some 202401010900⟩] "A",
        jkey w ≤ jkey p) ∧
      (∀ p ∈ rgroup [⟨some "A", some 202401021000⟩, ⟨some "A", some 202401010900⟩] "A",
        tsKey w.2.ts ≤ tsKey p.2.ts) ∧
      ∃ out st, dedupeResponse [⟨some "A", some 202401021000⟩, ⟨some "A", some 202401010900⟩] =
          some (out, st) ∧ w.2 ∈ out) ∧
    dedupeResponse [⟨some "A", some 202401021000⟩, ⟨some "A", some 202401010900⟩] =
      some ([⟨some "A", some 202401010900⟩], ⟨1⟩) :=
  ⟨response_dedup_policy
      [⟨some "A", some 202401021000⟩, ⟨some "A", some 202401010900⟩] "A" (by decide),
    by decide⟩

/-- C10 counterexample: the claim asserts that rows with a missing SessionID
raise no error; on a response table consisting only of such rows,
`dedupe_response` forms zero groups and the Python code raises `IndexError`
at `kept[0].index` (modelled by `none`), so no output exists. -/
theorem dedupeResponse_all_null_keys_fail :
    ¬ ∃ out st, dedupeResponse [⟨none, some 7⟩, ⟨none, none⟩] = some (out, st) := by
  rintro ⟨out, st, h⟩
  have h0 : dedupeResponse [⟨none, some 7⟩, ⟨none, none⟩] = none := rfl
  rw [h0] at h
  exact Option.noConfusion h

/-- C10 (amended): rows whose grouping-key value is missing are silently
excluded from deduplication — appending a row with a missing SessionID (or a
missing Action in `with_action` mode) to the input leaves the output table and
all statistics of `dedupe_actions` and of `dedupe_response` unchanged: it
contributes no group, no output row, and no count.  No error is raised for
such rows by `dedupe_actions`; `dedupe_response` likewise raises none provided
the rest of the input yields at least one group (if no row has a valid
SessionID, `dedupe_response` fails — see the counterexample). -/
theorem missing_key_rows_ignored
    (df : List ARow) (top3 : List (String × ℤ)) (mode : DMode) (r : ARow)
    (hra : akey mode r = none)
    (rdf : List RRow) (s : RRow) (hrs : s.sessionId = none) :
    dedupeActions (df ++ [r]) top3 mode = dedupeActions df top3 mode ∧
    dedupeResponse (rdf ++ [s]) = dedupeResponse rdf := by
  constructor
  · have hkeys : akeys mode (df ++ [r]) = akeys mode df := by
      rw [akeys, akeys, List.filterMap_append]
      simp [hra]
    have hgroup : agroup mode (df ++ [r]) = agroup mode df := by
      funext k
      rw [agroup, agroup, List.enum_append, List.enumFrom_singleton, List.filter_append]
      simp [hra]
    rw [dedupeActions, dedupeActions, hkeys, hgroup]
  · have hkeys : rkeys (rdf ++ [s]) = rkeys rdf := by
      rw [rkeys, rkeys, List.filterMap_append]
      simp [hrs]
    have hgroup : rgroup (rdf ++ [s]) = rgroup rdf := by
      funext k
      rw [rgroup, rgroup, List.enum_append, List.enumFrom_singleton, List.filter_append]
      simp [hrs]
    rw [dedupeResponse, dedupeResponse, hkeys, hgroup]

/-- Witness for C10 at concrete inputs: a null-Action row appended to a
one-row actions table and a null-SessionID row appended to a one-row response
table change nothing. -/
theorem missing_key_rows_ignored_witness :
    dedupeActions
        [⟨some "S", some "Click", some "WABC", some 1, ((1:ℚ)/2 : ℚ)⟩,
         ⟨some "S", none, some "KAAA", some 2, ((3:ℚ)/4 : ℚ)⟩]
        [("WABC", 1)] DMode.withAction =
      dedupeActions [⟨some "S", some "Click", some "WABC", some 1, ((1:ℚ)/2 : ℚ)⟩]
        [("WABC", 1)] DMode.withAction ∧
    dedupeResponse [⟨some "A", some 3⟩, ⟨none, none⟩] =
      dedupeResponse [⟨some "A", some 3⟩] :=
  missing_key_rows_ignored
    [⟨some "S", some "Click", some "WABC", some 1, ((1:ℚ)/2 : ℚ)⟩]
    [("WABC", 1)] DMode.withAction
    ⟨some "S", none, some "KAAA", some 2, ((3:ℚ)/4 : ℚ)⟩ (by decide)
    [⟨some "A", some 3⟩] ⟨none, none⟩ (by decide)

/-! ### Hour coercion (normalization.py, `coerce_hour_series`) -/

/-- One cell of a raw time column as seen by `coerce_hour_series`: a numeric
value (int or float), a string parseable as a time of day (carrying its hour
and minute), a numeric-looking string (digit string such as "630" or "0.75",
carrying its numeric value), a `datetime.time` object, or unparseable junk. -/
inductive TimeCell
  | numC (q : ℚ)
  | strTime (h m : ℕ)
  | strNum (q : ℚ)
  | timeObj (h m : ℕ)
  | junk
deriving DecidableEq, Repr

/-- Hour of `pd.to_datetime(x, errors="coerce")` (`none` = `NaT`), modelling
pandas parsing semantics:
* a numeric value is an epoch offset in nanoseconds, so every (non-negative)
  numeric cell parses to a valid timestamp whose hour is
  `(⌊q⌋ / 3600·10⁹) % 24` — in particular hour 0 for any value of day-fraction
  or HHMM magnitude;
* an integer-valued numeric string parses as a year when it lies inside the
  `pd.Timestamp` year range 1677–2262 (midnight of Jan 1, hour 0) and fails
  (out-of-bounds year) otherwise; a fractional numeric string fails;
* a time-of-day string parses to its hour;
* a `datetime.time` object is not convertible and yields `NaT`. -/
def toDatetimeHour : TimeCell → Option ℕ
  | .numC q => some ((Int.floor (q / 3600000000000)).toNat % 24)
  | .strTime h _ => some h
  | .strNum q => if q.den = 1 ∧ 1677 ≤ q.num ∧ q.num ≤ 2262 then some 0 else none
  | .timeObj _ _ => none
  | .junk => none

/-- Model of `pd.to_numeric(x, errors="coerce")` on one cell. -/
def toNumericQ : TimeCell → Option ℚ
  | .numC q => some q
  | .strNum q => some q
  | _ => none

/-- Strategy 4 of `coerce_hour_series`: `.hour` of a `datetime.time` object. -/
def timeObjHour : TimeCell → Option ℕ
  | .timeObj h _ => some h
  | _ => none

/-- Model of `coerce_hour_series` on one value (normalization.py lines 32-76).  The
masks of the series code translate per-value: the datetime parse wins where it
succeeds; where it is missing, a numeric day-fraction in `[0,1)` gives
`⌊q·24⌋`; where still missing, a numeric HHMM in `[100,2359]` gives
`⌊q/100⌋ % 24` (Python floor division); finally `.hour` of a time-like
object; otherwise the value stays missing. -/
def coerceHour (c : TimeCell) : Option ℕ :=
  match toDatetimeHour c with
  | some h => some h
  | none =>
    match toNumericQ c with
    | some q =>
      if 0 ≤ q ∧ q < 1 then some (Int.floor (q * 24)).toNat
      else if 100 ≤ q ∧ q ≤ 2359 then some ((Int.floor (q / 100)) % 24).toNat
      else timeObjHour c
    | none => timeObjHour c

/-- C8: evaluation of `coerce_hour` at the claim's scenario inputs.  The
string inputs behave as claimed — `coerce_hour("630") = 6` (the datetime
parse fails since year 630 is outside the Timestamp range, then the HHMM
branch fires) and `coerce_hour("6:30 AM") = 6` — but the claimed
`coerce_hour(0.75) = 18` fails on the code: for the *numeric* value 0.75 the
first strategy already succeeds (`pd.to_datetime` reads 0.75 as 0.75
nanoseconds after the 1970 epoch, a valid timestamp with hour 0), so the
Excel-day-fraction branch is shadowed and the result is 0, contradicting the
claim and the function's own docstring ("handles ... Excel times (floats
0..1), HHMM integers (e.g., 630, 1830)"); the same shadowing sends numeric
630 to 0, and the string "1830" to 0 (parsed as the in-range year 1830). -/
theorem coerce_hour_eval :
    coerceHour (TimeCell.numC ((3:ℚ)/4)) = some 0 ∧
    coerceHour (TimeCell.numC 630) = some 0 ∧
    coerceHour (TimeCell.strNum 630) = some 6 ∧
    coerceHour (TimeCell.strNum 1830) = some 0 ∧
    coerceHour (TimeCell.strTime 6 30) = some 6 ∧
    coerceHour (TimeCell.strNum ((3:ℚ)/4)) = some 18 ∧
    coerceHour (TimeCell.timeObj 6 30) = some 6 ∧
    coerceHour TimeCell.junk = none := by
  refine ⟨?_, ?_, ?_, ?_, ?_, ?_, ?_, ?_⟩
  · have h : ⌊((3:ℚ)/4) / 3600000000000⌋ = 0 := by
      rw [Int.floor_eq_zero_iff, Set.mem_Ico]
      constructor <;> norm_num
    simp [coerceHour, toDatetimeHour, h]
  · have h : ⌊(630:ℚ) / 3600000000000⌋ = 0 := by
      rw [Int.floor_eq_zero_iff, Set.mem_Ico]
      constructor <;> norm_num
    simp [coerceHour, toDatetimeHour, h]
  · have h : ⌊(630:ℚ) / 100⌋ = 6 := by
      rw [Int.floor_eq_iff]
      constructor <;> norm_num
    have hd : ((630:ℚ)).den = 1 := rfl
    have hn : ((630:ℚ)).num = 630 := rfl
    simp only [coerceHour, toDatetimeHour, toNumericQ, hd, hn]
    rw [if_neg (by norm_num)]
    simp only [if_neg (show ¬ ((0:ℚ) ≤ 630 ∧ (630:ℚ) < 1) by norm_num),
      if_pos (show (100:ℚ) ≤ 630 ∧ (630:ℚ) ≤ 2359 by norm_num), h]
    rfl
  · have hd : ((1830:ℚ)).den = 1 := rfl
    have hn : ((1830:ℚ)).num = 1830 := rfl
    simp only [coerceHour, toDatetimeHour, hd, hn]
    rw [if_pos (by norm_num)]
  · simp [coerceHour, toDatetimeHour]
  · have h : ⌊((3:ℚ)/4) * 24⌋ = 18 := by
      rw [Int.floor_eq_iff]
      constructor <;> norm_num
    have hd : (((3:ℚ)/4)).den = 4 := by norm_num
    simp only [coerceHour, toDatetimeHour, toNumericQ, hd]
    rw [if_neg (by norm_num)]
    simp only [if_pos (show (0:ℚ) ≤ 3/4 ∧ (3:ℚ)/4 < 1 by norm_num), h]
    rfl
  · simp [coerceHour, toDatetimeHour, toNumericQ, timeObjHour]
  · simp [coerceHour, toDatetimeHour, toNumericQ, timeObjHour]

/-! ### Spend aggregation (spend.py) -/

/-- Order-preserving code of a Python string: comparing code-point lists
lexicographically is exactly Python's (and pandas') string ordering. -/
def strOrd (s : String) : List ℕ := s.data.map Char.toNat

/-- Python string order. -/
def strLe (a b : String) : Prop := strOrd a ≤ strOrd b

instance : DecidableRel strLe := fun a b => inferInstanceAs (Decidable (strOrd a ≤ strOrd b))

instance : IsTotal String strLe := ⟨fun a b => le_total (strOrd a) (strOrd b)⟩

instance : IsTrans String strLe := ⟨fun _ _ _ hab hbc => le_trans hab hbc⟩

/-- Distinct keys in sorted order: the key order of `pandas.groupby` with the
default `sort=True`. -/
def sortedKeys (l : List String) : List String := List.insertionSort strLe (firstKeys l)

/-- A compile-ledger row as consumed by the station block of
`build_compile_spend` (spend.py lines 42-51): the raw station cell and the
parse results of the cost and impressions cells (`none` = unparseable or
missing). -/
structure SRow where
  station : Option String
  cost : Option ℚ
  impressions : Option ℚ
deriving DecidableEq, Repr

/-- Model of `coerce_numeric(...).fillna(0)`: unparseable cells contribute 0. -/
def coerceFill (c : Option ℚ) : ℚ := c.getD 0

/-- The `station_spend` table of `build_compile_spend`: stations are
normalized and filled with "UNKNOWN" *before* grouping; Cost and Impressions
are coerced (unparseable → 0) and summed per canonical station. -/
def stationSpend (rows : List SRow) : List (String × ℚ × ℚ) :=
  let keyed := rows.map (fun r =>
    (fillStation r.station, coerceFill r.cost, coerceFill r.impressions))
  (sortedKeys (keyed.map (·.1))).map (fun s =>
    (s, ((keyed.filter (fun p => p.1 = s)).map (fun p => p.2.1)).sum,
        ((keyed.filter (fun p => p.1 = s)).map (fun p => p.2.2)).sum))

/-- A compile-ledger row as consumed by the ranking branch with an explicit
spot-count column: raw station cell and the parse results of the cost,
spot-count and impressions cells. -/
structure CRow where
  station : Option String
  cost : Option ℚ
  spots : Option ℚ
  impressions : Option ℚ
deriving DecidableEq, Repr

/-- An aggregated per-station row (Cost/SpotCount/Impressions sums). -/
structure AggRow where
  station : String
  cost : ℚ
  spotCount : ℚ
  impressions : ℚ
deriving DecidableEq, Repr

/-- A row of the rank table: aggregates plus `cost_per_spot` and `Rank`. -/
structure RankRow where
  station : String
  cost : ℚ
  spotCount : ℚ
  impressions : ℚ
  cpp : ℚ
  rank : ℕ
deriving DecidableEq, Repr

/-- The aggregation step of `build_station_priority`: group by the *raw*
station value (`pandas.groupby` default sort order, rows with a missing raw
station dropped), sum the coerced Cost/SpotCount/Impressions, and only *then*
normalize the station name (spend.py line 308 runs after the groupby). -/
def aggStations (rows : List CRow) : List AggRow :=
  (sortedKeys (rows.filterMap (·.station))).map (fun s =>
    ⟨(normStation s).getD "UNKNOWN",
     ((rows.filter (fun r => r.station = some s)).map (fun r => coerceFill r.cost)).sum,
     ((rows.filter (fun r => r.station = some s)).map (fun r => coerceFill r.spots)).sum,
     ((rows.filter (fun r => r.station = some s)).map (fun r => coerceFill r.impressions)).sum⟩)

/-- Comparison definition, modelled from the claim's words, used only by the
C7 counterexample: the aggregation as the claim describes it, grouping by the
*canonical* station name (normalization before grouping).  The rest of the
pipeline is shared. -/
def aggStationsCanonical (rows : List CRow) : List AggRow :=
  (sortedKeys (rows.map (fun r => fillStation r.station))).map (fun s =>
    ⟨s,
     ((rows.filter (fun r => fillStation r.station = s)).map (fun r => coerceFill r.cost)).sum,
     ((rows.filter (fun r => fillStation r.station = s)).map (fun r => coerceFill r.spots)).sum,
     ((rows.filter (fun r => fillStation r.station = s)).map (fun r => coerceFill r.impressions)).sum⟩)

/-- The 4-key sort key of the rank table: `cost_per_spot` descending, Cost
descending, SpotCount descending, station name ascending (Python string
order). -/
def aggKey (a : AggRow) :
    Lex ((OrderDual ℚ) × Lex ((OrderDual ℚ) × Lex ((OrderDual ℚ) × List ℕ))) :=
  toLex (OrderDual.toDual (a.cost / a.spotCount),
    toLex (OrderDual.toDual a.cost,
      toLex (OrderDual.toDual a.spotCount, strOrd a.station)))

/-- The sort relation of the rank table. -/
def aggLE (a b : AggRow) : Prop := aggKey a ≤ aggKey b

instance : DecidableRel aggLE := fun a b => inferInstanceAs (Decidable (aggKey a ≤ aggKey b))

instance : IsTotal AggRow aggLE := ⟨fun a b => le_total (aggKey a) (aggKey b)⟩

instance : IsTrans AggRow aggLE := ⟨fun _ _ _ h1 h2 => le_trans h1 h2⟩

/-- Stations with a positive spot count, in the sorted rank order.  (pandas'
unstable quicksort is determinized by a stable sort; the four keys tie only
for duplicate canonical spellings with identical aggregates.) -/
def sortedRankable (agg : List AggRow) : List AggRow :=
  List.insertionSort aggLE (agg.filter (fun a => 0 < a.spotCount))

/-- Model of `drop_duplicates("Station")` — keep the first row of each station. -/
def dedupByStationAux (seen : List String) : List RankRow → List RankRow
  | [] => []
  | r :: l =>
    if r.station ∈ seen then dedupByStationAux seen l
    else r :: dedupByStationAux (r.station :: seen) l

def dedupByStation (l : List RankRow) : List RankRow := dedupByStationAux [] l

/-- Filter out zero-spot stations, compute `cost_per_spot`, sort by the 4-key
order, assign ranks 1..n in that order, and take the first 3 distinct
stations: spend.py lines 312-318. -/
def rankPipeline (agg : List AggRow) : List RankRow × List RankRow :=
  ((sortedRankable agg).enum.map (fun p =>
      ⟨p.2.station, p.2.cost, p.2.spotCount, p.2.impressions,
        p.2.cost / p.2.spotCount, p.1 + 1⟩),
   (dedupByStation ((sortedRankable agg).enum.map (fun p =>
      ⟨p.2.station, p.2.cost, p.2.spotCount, p.2.impressions,
        p.2.cost / p.2.spotCount, p.1 + 1⟩))).take 3)

/-- Model of `build_station_priority` (spend.py lines 249-318), explicit spot-count
branch: returns (full rank table, top-3 table). -/
def buildStationPriority (rows : List CRow) : List RankRow × List RankRow :=
  rankPipeline (aggStations rows)

/-- The claim's version of `build_station_priority`, grouping by canonical
station. -/
def buildStationPriorityCanonical (rows : List CRow) : List RankRow × List RankRow :=
  rankPipeline (aggStationsCanonical rows)

theorem rankPipeline_fst_length (agg : List AggRow) :
    (rankPipeline agg).1.length = (sortedRankable agg).length := by
  simp [rankPipeline]

theorem sortedRankable_length (agg : List AggRow) :
    (sortedRankable agg).length = (agg.filter (fun a => 0 < a.spotCount)).length :=
  (List.perm_insertionSort aggLE _).length_eq

/-- C7 counterexample: two raw spellings `"A "` and `"a"` of one canonical
station `"A"`.  Grouping by canonical station, as the claim describes, yields
a single rank row (Cost 150, SpotCount 2); the code groups by the *raw*
station value and normalizes only after aggregation, yielding two rank rows
both named `"A"` (Costs 100 and 50, ranks 1 and 2), so the claim's
description of the grouping is false on the code. -/
theorem station_priority_raw_grouping :
    (buildStationPriority
        [⟨some "A ", some 100, some 1, some 0⟩, ⟨some "a", some 50, some 1, some 0⟩]).1.length = 2 ∧
    (buildStationPriorityCanonical
        [⟨some "A ", some 100, some 1, some 0⟩, ⟨some "a", some 50, some 1, some 0⟩]).1.length = 1 := by
  have hagg : aggStations
      [⟨some "A ", some 100, some 1, some 0⟩, ⟨some "a", some 50, some 1, some 0⟩] =
      [⟨"A", 100 + 0, 1 + 0, 0 + 0⟩, ⟨"A", 50 + 0, 1 + 0, 0 + 0⟩] := rfl
  have haggc : aggStationsCanonical
      [⟨some "A ", some 100, some 1, some 0⟩, ⟨some "a", some 50, some 1, some 0⟩] =
      [⟨"A", 100 + (50 + 0), 1 + (1 + 0), 0 + (0 + 0)⟩] := rfl
  constructor
  · rw [buildStationPriority, rankPipeline_fst_length, sortedRankable_length, hagg]
    simp only [List.filter_cons, List.filter_nil]
    rw [if_pos (by simp only [decide_eq_true_eq]; norm_num),
      if_pos (by simp only [decide_eq_true_eq]; norm_num)]
    rfl
  · rw [buildStationPriorityCanonical, rankPipeline_fst_length, sortedRankable_length, haggc]
    simp only [List.filter_cons, List.filter_nil]
    rw [if_pos (by simp only [decide_eq_true_eq]; norm_num)]
    rfl

/-- C7 (amended): station ranking.  `build_station_priority` groups spend by
the *raw* station value and canonicalizes names only after aggregation (so
distinct raw spellings of one canonical station stay separate rank rows, see
the counterexample); it keeps only stations with SpotCount > 0, computes
cost_per_spot = Cost/SpotCount, sorts by cost_per_spot descending, then Cost
descending, then SpotCount descending, then station name ascending, assigns
sequential integer ranks 1..n in that order (row i gets rank i+1), and
returns as top-3 the first 3 distinct station names of that ordering; on the
claim's example (A: Cost=1000, Spots=10; B: Cost=500, Spots=2) the ranking is
Rank 1 = B, Rank 2 = A. -/
theorem station_ranking (rows : List CRow) :
    List.Sorted aggLE (sortedRankable (aggStations rows)) ∧
    (∀ a ∈ sortedRankable (aggStations rows), 0 < a.spotCount) ∧
    (∀ r ∈ (buildStationPriority rows).1, 0 < r.spotCount ∧ r.cpp = r.cost / r.spotCount) ∧
    ((buildStationPriority rows).1.map (fun r => r.rank)) =
      List.range' 1 (sortedRankable (aggStations rows)).length ∧
    (buildStationPriority rows).2 = (dedupByStation (buildStationPriority rows).1).take 3 ∧
    ((buildStationPriority
        [⟨some "A", some 1000, some 10, some 0⟩, ⟨some "B", some 500, some 2, some 0⟩]).1.map
      (fun r => (r.station, r.rank))) = [("B", 1), ("A", 2)] := by
  refine ⟨List.sorted_insertionSort aggLE _, ?_, ?_, ?_, rfl, ?_⟩
  · intro a ha
    rw [sortedRankable, List.mem_insertionSort] at ha
    simpa using (List.mem_filter.mp ha).2
  · intro r hr
    rw [buildStationPriority, rankPipeline] at hr
    obtain ⟨p, hp, rfl⟩ := List.mem_map.mp hr
    have hmem : p.2 ∈ sortedRankable (aggStations rows) := by
      have := List.mem_map_of_mem Prod.snd hp
      rwa [List.enum_map_snd] at this
    rw [sortedRankable, List.mem_insertionSort] at hmem
    exact ⟨by simpa using (List.mem_filter.mp hmem).2, rfl⟩
  · rw [buildStationPriority, rankPipeline]
    show ((sortedRankable (aggStations rows)).enum.map _).map _ = _
    rw [List.map_map, List.range'_eq_map_range, ← List.enum_map_fst (sortedRankable (aggStations rows)),
      List.map_map]
    exact List.map_congr_left (fun p _ => Nat.add_comm p.1 1)
  · have hagg : aggStations
        [⟨some "A", some 1000, some 10, some 0⟩, ⟨some "B", some 500, some 2, some 0⟩] =
        [⟨"A", 1000 + 0, 10 + 0, 0 + 0⟩, ⟨"B", 500 + 0, 2 + 0, 0 + 0⟩] := rfl
    have hfil : ([(⟨"A", 1000 + 0, 10 + 0, 0 + 0⟩ : AggRow), ⟨"B", 500 + 0, 2 + 0, 0 + 0⟩].filter
        (fun a => 0 < a.spotCount)) =
        [⟨"A", 1000 + 0, 10 + 0, 0 + 0⟩, ⟨"B", 500 + 0, 2 + 0, 0 + 0⟩] := by
      simp only [List.filter_cons, List.filter_nil]
      rw [if_pos (by simp only [decide_eq_true_eq]; norm_num),
        if_pos (by simp only [decide_eq_true_eq]; norm_num)]
    have hnle : ¬ aggLE ⟨"A", 1000 + 0, 10 + 0, 0 + 0⟩ ⟨"B", 500 + 0, 2 + 0, 0 + 0⟩ := by
      rw [aggLE, aggKey, aggKey, Prod.Lex.le_iff]
      rintro (h | ⟨h, -⟩)
      · have h2 : ((500:ℚ) + 0) / (2 + 0) < (1000 + 0) / (10 + 0) := by
          simpa using h
        norm_num at h2
      · have h2 : ((1000:ℚ) + 0) / (10 + 0) = (500 + 0) / (2 + 0) := by
          simpa using h
        norm_num at h2
    have hsort : sortedRankable (aggStations
        [⟨some "A", some 1000, some 10, some 0⟩, ⟨some "B", some 500, some 2, some 0⟩]) =
        [⟨"B", 500 + 0, 2 + 0, 0 + 0⟩, ⟨"A", 1000 + 0, 10 + 0, 0 + 0⟩] := by
      rw [sortedRankable, hagg, hfil]
      simp only [List.insertionSort, List.orderedInsert]
      rw [if_neg hnle]
    rw [buildStationPriority, rankPipeline]
    show ((sortedRankable _).enum.map _).map _ = _
    rw [hsort]
    rfl

/-! ### Performance tables (performance.py) -/

/-- Dimensional key of the weekly Station×Creative tables:
(Station, Creative, week label). -/
abbrev PKey := String × String × String

/-- Sorted-key order used by `groupby`/`pivot` on (Station, Creative, Week). -/
def pkeyOrd (k : PKey) : Lex (List ℕ × Lex (List ℕ × List ℕ)) :=
  toLex (strOrd k.1, toLex (strOrd k.2.1, strOrd k.2.2))

def pkeyLe (a b : PKey) : Prop := pkeyOrd a ≤ pkeyOrd b

instance : DecidableRel pkeyLe := fun a b => inferInstanceAs (Decidable (pkeyOrd a ≤ pkeyOrd b))

/-- Distinct (Station, Creative, Week) keys in sorted order. -/
def sortedPKeys (l : List PKey) : List PKey := List.insertionSort pkeyLe (firstKeys l)

/-- Look up a named numeric column of a row (`none` = absent or NaN). -/
def lookupQ (vals : List (String × Option ℚ)) (c : String) : Option ℚ :=
  match (vals.filter (fun p => p.1 = c)).head? with
  | some p => p.2
  | none => none

/-- Column assignment `df[c] = v`: replace the column if present, else append
it on the right, as pandas does. -/
def setVal (vals : List (String × Option ℚ)) (c : String) (v : Option ℚ) :
    List (String × Option ℚ) :=
  if (vals.map (·.1)).contains c then
    vals.map (fun p => if p.1 = c then (c, v) else p)
  else vals ++ [(c, v)]

def strStartsCh : List Char → List Char → Bool
  | [], _ => true
  | _ :: _, [] => false
  | c :: p, d :: s => c = d && strStartsCh p s

/-- Test for derived ratio columns: the `str(c).startswith("Cost per ")`
check used by every `action_cols` filter in performance.py. -/
def isCostPer (c : String) : Bool := strStartsCh "Cost per ".data c.data

/-- A weekly Station×Creative performance table: the column-name list
(`df.columns`) and the rows, each carrying its key and the numeric columns as
an association list. -/
structure PTable where
  cols : List String
  rows : List (PKey × List (String × Option ℚ))
deriving DecidableEq, Repr

/-- The summed Creative table: keyed by (Creative, Week). -/
structure CTable where
  cols : List String
  rows : List ((String × String) × List (String × Option ℚ))
deriving DecidableEq, Repr

/-- The non-metric column names of the Channel-by-Creative table
(performance.py line 171). -/
def fixedCB : List String :=
  ["Station", "Creative", "Week Of (Mon)", "Client", "Cost", "Responses",
   "Cost per Response", "Impressions"]

/-- The `fixed_base` set of the Creative table (performance.py line 198);
note it does *not* contain "Actions_Total". -/
def fixedCreative : List String :=
  ["Creative", "Week Of (Mon)", "Client", "Cost", "Responses", "Impressions"]

/-- The ratio-column loop (`for act_col in action_cols: df[f"Cost per
{act_col}"] = np.where(df[act_col] > 0, df["Cost"]/df[act_col], np.nan)`),
reading the row state current at each step. -/
def addRatioCols (actionCols : List String) (vals : List (String × Option ℚ)) :
    List (String × Option ℚ) :=
  actionCols.foldl (fun vs a =>
    setVal vs ("Cost per " ++ a)
      (if 0 < (lookupQ vs a).getD 0
       then some ((lookupQ vs "Cost").getD 0 / (lookupQ vs a).getD 0)
       else none)) vals

/-- Model of the Channel-by-Creative construction (performance.py lines
146-179; the value-preserving column reordering `_reorder_metrics` is
omitted — it permutes `df.columns` without changing any cell):
outer-merge of the weekly Station×Creative spend table with the response
counts (`groupby(...).size()`, sorted keys) and the action pivot (one column
per distinct Action label, sorted), then coercion filling every numeric gap
with 0, `Cost per Response` guarded against zero, `Actions_Total` as the
row-sum over the discovered action columns, and the guarded per-action and
Actions_Total ratio columns. -/
def buildChannelByCreative (spend : List (PKey × ℚ × ℚ))
    (resp : List PKey) (act : List (PKey × String)) : PTable :=
  let labels := sortedKeys (act.map (·.2))
  let respKeys := sortedPKeys resp
  let actKeys := sortedPKeys (act.map (·.1))
  let spendKeys := spend.map (·.1)
  let keys1 := spendKeys ++ respKeys.filter (fun k => ¬ spendKeys.contains k)
  let keys := keys1 ++ actKeys.filter (fun k => ¬ keys1.contains k)
  let actionCols := (["Station", "Creative", "Week Of (Mon)", "Cost", "Impressions",
      "Responses"] ++ labels ++ ["Client", "Cost per Response"]).filter
    (fun c => c ∉ fixedCB ∧ ¬ isCostPer c = true)
  let rowFor := fun (k : PKey) =>
    let vals0 : List (String × Option ℚ) :=
      [("Cost", ((spend.filter (fun p => p.1 = k)).head?).map (fun p => p.2.1)),
       ("Impressions", ((spend.filter (fun p => p.1 = k)).head?).map (fun p => p.2.2)),
       ("Responses", if respKeys.contains k
          then some ((resp.filter (fun j => j = k)).length : ℚ) else none)] ++
      labels.map (fun a => (a, if actKeys.contains k
          then some (((act.filter (fun p => p.1 = k ∧ p.2 = a)).length : ℚ)) else none))
    let vals1 := vals0.map (fun p => (p.1, some (p.2.getD 0)))
    let vals2 := setVal vals1 "Cost per Response"
      (if 0 < (lookupQ vals1 "Responses").getD 0
       then some ((lookupQ vals1 "Cost").getD 0 / (lookupQ vals1 "Responses").getD 0)
       else none)
    let vals3 :=
      if actionCols.isEmpty then vals2
      else
        let valsA := setVal vals2 "Actions_Total"
          (some ((actionCols.map (fun c => (lookupQ vals2 c).getD 0)).sum))
        let valsB := addRatioCols actionCols valsA
        setVal valsB "Cost per Actions_Total"
          (if 0 < (lookupQ valsB "Actions_Total").getD 0
           then some ((lookupQ valsB "Cost").getD 0 / (lookupQ valsB "Actions_Total").getD 0)
           else none)
    (k, vals3)
  { cols := ["Station", "Creative", "Week Of (Mon)", "Cost", "Impressions", "Responses"] ++
      labels ++ ["Client", "Cost per Response"] ++
      (if actionCols.isEmpty then []
       else ["Actions_Total"] ++ actionCols.map (fun a => "Cost per " ++ a) ++
         ["Cost per Actions_Total"])
    rows := keys.map rowFor }

/-- Order for the (Creative, Week) groupby of the Creative table. -/
def cwOrd (k : String × String) : Lex (List ℕ × List ℕ) := toLex (strOrd k.1, strOrd k.2)

def cwLe (a b : String × String) : Prop := cwOrd a ≤ cwOrd b

instance : DecidableRel cwLe := fun a b => inferInstanceAs (Decidable (cwOrd a ≤ cwOrd b))

def sortedCWKeys (l : List (String × String)) : List (String × String) :=
  List.insertionSort cwLe (firstKeys l)

/-- Model of the Creative table construction (performance.py lines 181-210):
`sum_cols` is every column of the Channel-by-Creative table that is neither a
key/Client column nor a "Cost per " ratio column — this *includes* the
already-computed `Actions_Total`; the table is grouped by (Creative, Week)
summing `sum_cols`; then `action_cols` is recomputed against a `fixed_base`
that again fails to exclude `Actions_Total`, `Actions_Total` is overwritten
with the row-sum over `action_cols` (i.e. the genuine action columns *plus*
the old `Actions_Total`), the ratio columns are rebuilt from the current
values, `Cost per Actions_Total` is recomputed, and finally
`Cost per Response`. -/
def buildCreative (t : PTable) : CTable :=
  let sumCols := t.cols.filter (fun c =>
    c ∉ (["Station", "Creative", "Week Of (Mon)", "Client"] : List String) ∧
      ¬ isCostPer c = true)
  let colsBase := ["Creative", "Week Of (Mon)"] ++ sumCols ++ ["Client"]
  let actionCols := colsBase.filter (fun c => c ∉ fixedCreative ∧ ¬ isCostPer c = true)
  let ckeys := sortedCWKeys (t.rows.map (fun r => (r.1.2.1, r.1.2.2)))
  let rowFor := fun (ck : String × String) =>
    let grp := t.rows.filter (fun r => r.1.2.1 = ck.1 ∧ r.1.2.2 = ck.2)
    let vals0 := sumCols.map (fun c =>
      (c, some ((grp.map (fun r => (lookupQ r.2 c).getD 0)).sum)))
    let vals1 :=
      if actionCols.isEmpty then vals0
      else
        let valsA := setVal vals0 "Actions_Total"
          (some ((actionCols.map (fun c => (lookupQ vals0 c).getD 0)).sum))
        let valsB := addRatioCols actionCols valsA
        setVal valsB "Cost per Actions_Total"
          (if 0 < (lookupQ valsB "Actions_Total").getD 0
           then some ((lookupQ valsB "Cost").getD 0 / (lookupQ valsB "Actions_Total").getD 0)
           else none)
    let vals2 := setVal vals1 "Cost per Response"
      (if 0 < (lookupQ vals1 "Responses").getD 0
       then some ((lookupQ vals1 "Cost").getD 0 / (lookupQ vals1 "Responses").getD 0)
       else none)
    (ck, vals2)
  { cols := colsBase ++
      (if actionCols.isEmpty then []
       else actionCols.map (fun a => "Cost per " ++ a)) ++ ["Cost per Response"]
    rows := ckeys.map rowFor }

set_option maxHeartbeats 1000000 in
/-- C4: Actions_Total consistency, evaluated at a one-station, one-creative,
one-week ledger with one response and one "Click" action.  In the
Channel-by-Creative table the invariant holds (`Actions_Total` = `Click` = 1).
The Creative table, however, sums the Station×Creative table's columns
*including* the already-computed `Actions_Total` (its `sum_cols` filter keeps
every non-key, non-"Cost per " column), and then recomputes `Actions_Total`
over an `action_cols` list whose `fixed_base` (performance.py line 198) again
fails to exclude `Actions_Total` — so the new `Actions_Total` is the genuine
action columns *plus* the old total: 1 + 1 = 2 ≠ 1.  The claim (and the
code's own "Recompute ratios from the summed bases" design, which every other
table follows by computing `action_cols` before `Actions_Total` exists) says
it should equal the sum of the action-label columns, here 1. -/
theorem creative_actions_total_doubled :
    ((buildChannelByCreative [((("S", "C", "W") : PKey), (10:ℚ), (0:ℚ))]
        [(("S", "C", "W") : PKey)] [((("S", "C", "W") : PKey), "Click")]).rows.map
      (fun r => (lookupQ r.2 "Actions_Total", lookupQ r.2 "Click"))) =
      [(some 1, some 1)] ∧
    ((buildCreative (buildChannelByCreative [((("S", "C", "W") : PKey), (10:ℚ), (0:ℚ))]
        [(("S", "C", "W") : PKey)] [((("S", "C", "W") : PKey), "Click")])).rows.map
      (fun r => (r.1, lookupQ r.2 "Actions_Total", lookupQ r.2 "Click"))) =
      [(("C", "W"), some 2, some 1)] ∧
    some (2:ℚ) ≠ some 1 := by
  refine ⟨?_, ?_, by norm_num⟩
  · simp [buildChannelByCreative, lookupQ, setVal, addRatioCols, sortedKeys, sortedPKeys,
      firstKeys, firstKeysAux, strLe, strOrd, pkeyLe, pkeyOrd, isCostPer, strStartsCh, fixedCB]
  · simp [buildCreative, buildChannelByCreative, lookupQ, setVal, addRatioCols, sortedKeys,
      sortedPKeys, sortedCWKeys, firstKeys, firstKeysAux, strLe, strOrd, pkeyLe, pkeyOrd,
      cwLe, cwOrd, isCostPer, strStartsCh, fixedCB, fixedCreative]
    norm_num

/-! ### The full family of spend tables (spend.py, `build_compile_spend`) -/

/-- One compile-ledger row as consumed by `build_compile_spend` (spend.py
lines 18-246): the raw station/creative/market cells, the per-row results of
the date/time derivations (`dt.day_name()`, `coerce_hour_series`,
`week_label_series`; `none` = missing or unparseable), and the parse results
of the cost and impressions cells (`none` = unparseable or missing). -/
structure LRow where
  station : Option String
  creative : Option String
  dayName : Option String
  hourCell : Option ℕ
  market : Option String
  week : Option String
  cost : Option ℚ
  impressions : Option ℚ
deriving DecidableEq, Repr

/-- Sum of a numeric column after `coerce_numeric(...).fillna(0)`:
unparseable cells contribute 0. -/
def sumFill (cells : List (Option ℚ)) : ℚ := (cells.map coerceFill).sum

/-- Pandas sum of an *uncoerced* numeric column (`skipna=True`): missing
cells are skipped, contributing 0, and an all-missing group sums to 0 —
the semantics of the one block (`station_w`, spend.py lines 137-142) that
sums Cost and Impressions without any coercion. -/
def sumSkip (cells : List (Option ℚ)) : ℚ := (cells.filterMap id).sum

/-- Model of the Creative normalization (spend.py lines 63 and 155): strip,
uppercase, and map the empty string to missing; unlike stations, the other
null-literal forms are kept. -/
def normCreative (c : Option String) : Option String :=
  c.bind (fun s =>
    let t := strUpper (strTrim s)
    if t = "" then none else some t)

/-- Lowercasing for the case-insensitive market regex (ASCII letters). -/
def strLower (s : String) : String := String.mk (s.data.map Char.toLower)

/-- Model of the market regex `(?i)^national\s*(cable|network)\s*$` on an
already-lowercased character list. -/
def isNationalForm (l : List Char) : Bool :=
  if strStartsCh "national".data l then
    let rest := (l.drop 8).dropWhile isSpaceChar
    let core := (rest.reverse.dropWhile isSpaceChar).reverse
    core = "cable".data || core = "network".data
  else false

/-- Model of the Market key (spend.py lines 124-126 and 214): `astype(str)`
turns a missing cell into the literal string "nan", then strip and collapse
the National Cable / National Network variants to "National". -/
def normMarket (m : Option String) : String :=
  let t := strTrim (match m with | none => "nan" | some s => s)
  if isNationalForm (strLower t).data then "National" else t

def keyStation (r : LRow) : Option String := some (fillStation r.station)

def keyStationCreative (r : LRow) : Option (String × String) :=
  (normCreative r.creative).map (fun c => (fillStation r.station, c))

def keyDay (r : LRow) : Option String := r.dayName

def keyHour (r : LRow) : Option ℕ := r.hourCell

def keyStationHour (r : LRow) : Option (String × ℕ) :=
  r.hourCell.map (fun h => (fillStation r.station, h))

def keyMarket (r : LRow) : Option String := some (normMarket r.market)

/-- Weekly variant of a grouping key: paired with the broadcast-week label;
rows without a week label (unparseable date) are dropped by the groupby. -/
def keyW (keyOf : LRow → Option κ) (r : LRow) : Option (κ × String) :=
  match keyOf r, r.week with
  | some k, some w => some (k, w)
  | _, _ => none

def natLe (a b : ℕ) : Prop := a ≤ b

instance : DecidableRel natLe := fun a b => inferInstanceAs (Decidable (a ≤ b))

def shOrd (k : String × ℕ) : Lex (List ℕ × ℕ) := toLex (strOrd k.1, k.2)

def shLe (a b : String × ℕ) : Prop := shOrd a ≤ shOrd b

instance : DecidableRel shLe := fun a b => inferInstanceAs (Decidable (shOrd a ≤ shOrd b))

def hwOrd (k : ℕ × String) : Lex (ℕ × List ℕ) := toLex (k.1, strOrd k.2)

def hwLe (a b : ℕ × String) : Prop := hwOrd a ≤ hwOrd b

instance : DecidableRel hwLe := fun a b => inferInstanceAs (Decidable (hwOrd a ≤ hwOrd b))

def scwOrd (k : (String × String) × String) : Lex (Lex (List ℕ × List ℕ) × List ℕ) :=
  toLex (cwOrd k.1, strOrd k.2)

def scwLe (a b : (String × String) × String) : Prop := scwOrd a ≤ scwOrd b

instance : DecidableRel scwLe := fun a b => inferInstanceAs (Decidable (scwOrd a ≤ scwOrd b))

def shwOrd (k : (String × ℕ) × String) : Lex (Lex (List ℕ × ℕ) × List ℕ) :=
  toLex (shOrd k.1, strOrd k.2)

def shwLe (a b : (String × ℕ) × String) : Prop := shwOrd a ≤ shwOrd b

instance : DecidableRel shwLe := fun a b => inferInstanceAs (Decidable (shwOrd a ≤ shwOrd b))

/-- Distinct keys in the groupby's sorted order, for an arbitrary key order. -/
def sortedKeysBy [DecidableEq κ] (le : κ → κ → Prop) [DecidableRel le] (l : List κ) :
    List κ :=
  List.insertionSort le (firstKeys l)

/-- Generic spend-table builder: group ledger rows by a key (rows whose key is
missing are dropped by `groupby`; keys in sorted order) and aggregate the
cost and impressions columns with the given per-column summation —
`sumFill` after `coerce_numeric(...).fillna(0)` for eleven of the twelve
blocks, `sumSkip` for the uncoerced `station_w` block. -/
def sumTable [DecidableEq κ] (le : κ → κ → Prop) [DecidableRel le]
    (keyOf : LRow → Option κ) (sumC sumI : List (Option ℚ) → ℚ)
    (rows : List LRow) : List (κ × ℚ × ℚ) :=
  (sortedKeysBy le (rows.filterMap keyOf)).map (fun k =>
    (k, sumC ((rows.filter (fun r => keyOf r = some k)).map (·.cost)),
        sumI ((rows.filter (fun r => keyOf r = some k)).map (·.impressions))))

/-- The twelve tables returned by `build_compile_spend`. -/
structure SpendTables where
  station : List (String × ℚ × ℚ)
  stationCreative : List ((String × String) × ℚ × ℚ)
  day : List (String × ℚ × ℚ)
  hour : List (ℕ × ℚ × ℚ)
  stationHour : List ((String × ℕ) × ℚ × ℚ)
  market : List (String × ℚ × ℚ)
  stationW : List ((String × String) × ℚ × ℚ)
  stationCreativeW : List (((String × String) × String) × ℚ × ℚ)
  dayW : List ((String × String) × ℚ × ℚ)
  hourW : List ((ℕ × String) × ℚ × ℚ)
  stationHourW : List (((String × ℕ) × String) × ℚ × ℚ)
  marketW : List ((String × String) × ℚ × ℚ)
deriving DecidableEq, Repr

/-- Model of `build_compile_spend` (spend.py lines 18-246): the six all-time
and six weekly Cost/Impressions aggregations.  Every block coerces its cost
and impressions cells with `coerce_numeric(...).fillna(0)` before summing —
except `station_w` (lines 137-142), which selects the raw columns and sums
them directly; pandas' `skipna` sum then drops missing cells (`sumSkip`).
A table whose key column is absent from the ledger degrades to an empty
table, which satisfies every per-row property trivially and is not modelled
separately. -/
def buildCompileSpend (rows : List LRow) : SpendTables :=
  { station := sumTable strLe keyStation sumFill sumFill rows
    stationCreative := sumTable cwLe keyStationCreative sumFill sumFill rows
    day := sumTable strLe keyDay sumFill sumFill rows
    hour := sumTable natLe keyHour sumFill sumFill rows
    stationHour := sumTable shLe keyStationHour sumFill sumFill rows
    market := sumTable strLe keyMarket sumFill sumFill rows
    stationW := sumTable cwLe (keyW keyStation) sumSkip sumSkip rows
    stationCreativeW := sumTable scwLe (keyW keyStationCreative) sumFill sumFill rows
    dayW := sumTable cwLe (keyW keyDay) sumFill sumFill rows
    hourW := sumTable hwLe (keyW keyHour) sumFill sumFill rows
    stationHourW := sumTable shwLe (keyW keyStationHour) sumFill sumFill rows
    marketW := sumTable cwLe (keyW keyMarket) sumFill sumFill rows }

theorem sumFill_nonneg (cells : List (Option ℚ))
    (h : ∀ c ∈ cells, ∀ q, c = some q → 0 ≤ q) : 0 ≤ sumFill cells := by
  refine List.sum_nonneg ?_
  intro x hx
  obtain ⟨c, hc, rfl⟩ := List.mem_map.mp hx
  rcases c with _ | q
  · simp [coerceFill]
  · simpa [coerceFill] using h _ hc q rfl

theorem sumSkip_nonneg (cells : List (Option ℚ))
    (h : ∀ c ∈ cells, ∀ q, c = some q → 0 ≤ q) : 0 ≤ sumSkip cells := by
  refine List.sum_nonneg ?_
  intro x hx
  obtain ⟨c, hc, hcx⟩ := List.mem_filterMap.mp hx
  exact h c hc x (by simpa using hcx)

theorem sumTable_nonneg [DecidableEq κ] (le : κ → κ → Prop) [DecidableRel le]
    (keyOf : LRow → Option κ) (sumC sumI : List (Option ℚ) → ℚ)
    (hC : ∀ cells, (∀ c ∈ cells, ∀ q, c = some q → 0 ≤ q) → 0 ≤ sumC cells)
    (hI : ∀ cells, (∀ c ∈ cells, ∀ q, c = some q → 0 ≤ q) → 0 ≤ sumI cells)
    (rows : List LRow)
    (hc : ∀ r ∈ rows, ∀ q, r.cost = some q → 0 ≤ q)
    (hi : ∀ r ∈ rows, ∀ q, r.impressions = some q → 0 ≤ q) :
    ∀ e ∈ sumTable le keyOf sumC sumI rows, 0 ≤ e.2.1 ∧ 0 ≤ e.2.2 := by
  intro e he
  rw [sumTable] at he
  obtain ⟨k, _, rfl⟩ := List.mem_map.mp he
  constructor
  · refine hC _ ?_
    intro c hcm q hq
    obtain ⟨r, hr, rfl⟩ := List.mem_map.mp hcm
    exact hc r (List.mem_filter.mp hr).1 q hq
  · refine hI _ ?_
    intro c hcm q hq
    obtain ⟨r, hr, rfl⟩ := List.mem_map.mp hcm
    exact hi r (List.mem_filter.mp hr).1 q hq

theorem filter_setVal_map (vs : List (String × Option ℚ)) (c c' : String) (v : Option ℚ)
    (h : c' ≠ c) :
    (vs.map (fun p => if p.1 = c then (c, v) else p)).filter (fun p => p.1 = c') =
      vs.filter (fun p => p.1 = c') := by
  induction vs with
  | nil => rfl
  | cons p l ih =>
    rw [List.map_cons, List.filter_cons, List.filter_cons]
    by_cases hp : p.1 = c
    · rw [if_pos hp,
        if_neg (by simp only [decide_eq_true_eq]; exact fun hh => h hh.symm),
        if_neg (by simp only [decide_eq_true_eq]; rw [hp]; exact fun hh => h hh.symm)]
      exact ih
    · rw [if_neg hp]
      by_cases hpc : p.1 = c'
      · rw [if_pos (by simp only [decide_eq_true_eq]; exact hpc),
          if_pos (by simp only [decide_eq_true_eq]; exact hpc), ih]
      · rw [if_neg (by simp only [decide_eq_true_eq]; exact hpc),
          if_neg (by simp only [decide_eq_true_eq]; exact hpc)]
        exact ih

/-- Assigning a column does not change the lookup of a different column. -/
theorem lookupQ_setVal_ne (vs : List (String × Option ℚ)) (c c' : String) (v : Option ℚ)
    (h : c' ≠ c) : lookupQ (setVal vs c v) c' = lookupQ vs c' := by
  rw [setVal]
  by_cases hmem : (vs.map (·.1)).contains c
  · rw [if_pos hmem, lookupQ, lookupQ, filter_setVal_map vs c c' v h]
  · rw [if_neg hmem, lookupQ, lookupQ, List.filter_append]
    have h0 : ([(c, v)].filter (fun p => p.1 = c')) = [] := by
      rw [List.filter_cons,
        if_neg (by simp only [decide_eq_true_eq]; exact fun hh => h hh.symm)]
      rfl
    rw [h0, List.append_nil]

/-- The ratio-column loop writes only "Cost per ..." columns, so it does not
change the lookup of any other column. -/
theorem lookupQ_addRatioCols (cols : List String) (vs : List (String × Option ℚ))
    (c' : String) (h : ∀ a : String, ("Cost per " ++ a) ≠ c') :
    lookupQ (addRatioCols cols vs) c' = lookupQ vs c' := by
  induction cols generalizing vs with
  | nil => rfl
  | cons a l ih =>
    have h1 : addRatioCols (a :: l) vs = addRatioCols l
        (setVal vs ("Cost per " ++ a)
          (if 0 < (lookupQ vs a).getD 0
           then some ((lookupQ vs "Cost").getD 0 / (lookupQ vs a).getD 0)
           else none)) := rfl
    rw [h1, ih]
    exact lookupQ_setVal_ne _ _ _ _ (fun hh => h a hh.symm)

theorem costPer_ne_cost (a : String) : ("Cost per " ++ a) ≠ "Cost" := by
  intro h
  have h2 : ("Cost per " ++ a).data.length = ("Cost" : String).data.length := by rw [h]
  have h3 : ("Cost per " ++ a).data = "Cost per ".data ++ a.data := rfl
  rw [h3, List.length_append] at h2
  have h4 : ("Cost per " : String).data.length = 9 := rfl
  have h5 : ("Cost" : String).data.length = 4 := rfl
  rw [h4, h5] at h2
  omega

theorem costPer_ne_impressions (a : String) : ("Cost per " ++ a) ≠ "Impressions" := by
  intro h
  have h2 : ("Cost per " ++ a).data.head? = ("Impressions" : String).data.head? := by rw [h]
  have h3 : ("Cost per " ++ a).data.head? = some 'C' := rfl
  have h4 : ("Impressions" : String).data.head? = some 'I' := rfl
  rw [h3, h4] at h2
  exact absurd h2 (by decide)

theorem lookupQ_cons_eq (p : String × Option ℚ) (rest : List (String × Option ℚ))
    (c' : String) (h : p.1 = c') : lookupQ (p :: rest) c' = p.2 := by
  rw [lookupQ, List.filter_cons, if_pos (by simpa using h)]
  rfl

theorem lookupQ_cons_ne (p : String × Option ℚ) (rest : List (String × Option ℚ))
    (c' : String) (h : ¬ p.1 = c') : lookupQ (p :: rest) c' = lookupQ rest c' := by
  rw [lookupQ, lookupQ, List.filter_cons, if_neg (by simpa using h)]

theorem head_cell_nonneg (spend : List (PKey × ℚ × ℚ)) (k : PKey)
    (f : PKey × ℚ × ℚ → ℚ) (hf : ∀ s ∈ spend, 0 ≤ f s) :
    0 ≤ ((((spend.filter (fun p => p.1 = k)).head?).map f).getD 0) := by
  rcases hh : (spend.filter (fun p => p.1 = k)).head? with _ | p
  · rw [hh]
    simp
  · rw [hh]
    have hp : p ∈ spend := (List.mem_filter.mp (List.mem_of_mem_head? hh)).1
    simpa using hf p hp

/-- In a Channel-by-Creative row, the Cost and Impressions cells are the
spend table's values for the row's key (0 when the key has no spend), and
they stay non-negative when the spend inputs are: the later column
assignments write only "Cost per ...", "Actions_Total" and
"Cost per Response"/"Cost per Actions_Total". -/
theorem cbc_cost_impressions_nonneg (spend : List (PKey × ℚ × ℚ)) (resp : List PKey)
    (act : List (PKey × String)) (hs : ∀ s ∈ spend, 0 ≤ s.2.1 ∧ 0 ≤ s.2.2) :
    ∀ r ∈ (buildChannelByCreative spend resp act).rows,
      0 ≤ (lookupQ r.2 "Cost").getD 0 ∧ 0 ≤ (lookupQ r.2 "Impressions").getD 0 := by
  intro r hr
  simp only [buildChannelByCreative] at hr
  obtain ⟨k, hk, rfl⟩ := List.mem_map.mp hr
  dsimp only
  constructor
  · split
    · rw [lookupQ_setVal_ne _ _ _ _ (by decide : ("Cost" : String) ≠ "Cost per Response")]
      simp only [List.map_append, List.map_cons, List.map_nil, List.cons_append,
        List.nil_append]
      rw [lookupQ_cons_eq _ _ _ rfl]
      exact head_cell_nonneg spend k _ (fun s hsm => (hs s hsm).1)
    · rw [lookupQ_setVal_ne _ _ _ _ (by decide : ("Cost" : String) ≠ "Cost per Actions_Total"),
        lookupQ_addRatioCols _ _ _ costPer_ne_cost,
        lookupQ_setVal_ne _ _ _ _ (by decide : ("Cost" : String) ≠ "Actions_Total"),
        lookupQ_setVal_ne _ _ _ _ (by decide : ("Cost" : String) ≠ "Cost per Response")]
      simp only [List.map_append, List.map_cons, List.map_nil, List.cons_append,
        List.nil_append]
      rw [lookupQ_cons_eq _ _ _ rfl]
      exact head_cell_nonneg spend k _ (fun s hsm => (hs s hsm).1)
  · split
    · rw [lookupQ_setVal_ne _ _ _ _ (by decide : ("Impressions" : String) ≠ "Cost per Response")]
      simp only [List.map_append, List.map_cons, List.map_nil, List.cons_append,
        List.nil_append]
      rw [lookupQ_cons_ne _ _ _ (by decide : ¬ ("Cost" : String) = "Impressions"),
        lookupQ_cons_eq _ _ _ rfl]
      exact head_cell_nonneg spend k _ (fun s hsm => (hs s hsm).2)
    · rw [lookupQ_setVal_ne _ _ _ _ (by decide : ("Impressions" : String) ≠ "Cost per Actions_Total"),
        lookupQ_addRatioCols _ _ _ costPer_ne_impressions,
        lookupQ_setVal_ne _ _ _ _ (by decide : ("Impressions" : String) ≠ "Actions_Total"),
        lookupQ_setVal_ne _ _ _ _ (by decide : ("Impressions" : String) ≠ "Cost per Response")]
      simp only [List.map_append, List.map_cons, List.map_nil, List.cons_append,
        List.nil_append]
      rw [lookupQ_cons_ne _ _ _ (by decide : ¬ ("Cost" : String) = "Impressions"),
        lookupQ_cons_eq _ _ _ rfl]
      exact head_cell_nonneg spend k _ (fun s hsm => (hs s hsm).2)

/-- A concrete three-row ledger for the C9 witness: a parseable cost with an
unparseable impressions cell, a row with everything missing except parseable
impressions, and a second spelling of station "A" with a zero cost. -/
def exLedger : List LRow :=
  [⟨some "A", some "c1", some "Monday", some 6, some "National Cable",
      some "2024-01-01", some 5, none⟩,
   ⟨none, none, none, none, none, none, none, some 3⟩,
   ⟨some "a ", some "", some "Tuesday", none, some "x", none, some 0, some 1⟩]

end DB
